import Mathlib

/-!
Verification of `src/maxdefense.hh`: a 0/1-knapsack variant over "armor items"
(each with a gold cost and a defense value), offering a greedy heuristic
(`greedy_max_defense`) and an exhaustive bit-mask subset search
(`exhaustive_max_defense`), together with the aggregation helper
(`sum_armor_vector`) and the bounded filter (`filter_armor_vector`).

Modeling conventions of this shallow embedding:
* C++ `double` is modeled as `ℚ` (exact arithmetic; the algorithms use only
  `+`, `/` and comparisons on the item data).
* `ArmorVector = std::vector<std::shared_ptr<ArmorItem>>` is modeled as
  `List ArmorItem` (shared handles to immutable records, so list of values).
* The `assert(n < 64)` precondition of the exhaustive solver is modeled by
  returning `Option`: `none` is the fatal assertion failure, `some` a
  normally returned solution.
* The `int` parameter `total_size` of `filter_armor_vector` is modeled as
  `ℤ`; the C++ comparison `filtered->size() >= total_size` converts the
  `int` to `size_t`, i.e. reduces it modulo `2 ^ 64`, which the embedding
  reproduces literally.
* The greedy while-loop terminates because each round erases one pool item;
  it is realized by well-founded recursion on the pool length.
-/

/-- The `ArmorItem` record: description, gold cost, defense points.
The constructor asserts `!description.empty()` and `cost_gold > 0`;
those validity invariants appear as hypotheses where theorems need them. -/
structure ArmorItem where
  description : String
  cost_gold : ℚ
  defense_points : ℚ
deriving DecidableEq, Inhabited

/-- Accessor `ArmorItem::cost()`. -/
def ArmorItem.cost (a : ArmorItem) : ℚ := a.cost_gold

/-- Accessor `ArmorItem::defense()`. -/
def ArmorItem.defense (a : ArmorItem) : ℚ := a.defense_points

/-- `sum_armor_vector`: one pass accumulating `(total_cost, total_defense)`,
both initialized to `0`. -/
def sum_armor_vector (armors : List ArmorItem) : ℚ × ℚ :=
  armors.foldl (fun t armor => (t.1 + armor.cost, t.2 + armor.defense)) (0, 0)

/-- Total cost of a collection (specification-side closed form of the first
component of `sum_armor_vector`). -/
def costSum (l : List ArmorItem) : ℚ := (l.map ArmorItem.cost).sum

/-- Total defense of a collection (specification-side closed form of the
second component of `sum_armor_vector`). -/
def defenseSum (l : List ArmorItem) : ℚ := (l.map ArmorItem.defense).sum

/-- The value of the C++ expression `(size_t)total_size`: conversion of a
(possibly negative) `int` to the unsigned 64-bit `size_t`. -/
def size_t_of_int (n : ℤ) : ℤ := n % (2 ^ 64)

/-- The loop of `filter_armor_vector`: scan `source` in order, keep items
whose defense lies in `[min_defense, max_defense]`, and break as soon as
`filtered->size() >= total_size` holds, where `total_size` is converted to
`size_t` by the comparison (modeled by `size_t_of_int`). -/
def filterLoop (min_defense max_defense : ℚ) (total_size : ℤ) :
    List ArmorItem → List ArmorItem → List ArmorItem
  | [], filtered => filtered
  | armor :: rest, filtered =>
    if armor.defense ≥ min_defense ∧ armor.defense ≤ max_defense then
      let filtered' := filtered ++ [armor]
      if (filtered'.length : ℤ) ≥ size_t_of_int total_size then filtered'
      else filterLoop min_defense max_defense total_size rest filtered'
    else filterLoop min_defense max_defense total_size rest filtered

/-- `filter_armor_vector(source, min_defense, max_defense, total_size)`. -/
def filter_armor_vector (source : List ArmorItem) (min_defense max_defense : ℚ)
    (total_size : ℤ) : List ArmorItem :=
  filterLoop min_defense max_defense total_size source []

/-- The inner `for` loop of `greedy_max_defense`: scan the pool with index
`i` starting from `i0`, threading the state `(max_armor_index,
max_armor_value)`, initially `(none, 0)` (the C++ sentinel index `-1` is
`none`).  An item is considered only if `result_cost + cost <= total_cost`,
and replaces the current best only if its value `defense / cost` is
strictly greater than `max_armor_value`. -/
def greedyScanGo (total_cost result_cost : ℚ) :
    List ArmorItem → ℕ → Option ℕ × ℚ → Option ℕ × ℚ
  | [], _, st => st
  | armor :: rest, i, st =>
    greedyScanGo total_cost result_cost rest (i + 1)
      (if result_cost + armor.cost ≤ total_cost then
        (if armor.defense / armor.cost > st.2 then (some i, armor.defense / armor.cost) else st)
       else st)

/-- One round of selection in `greedy_max_defense`: the whole inner scan of
the pool `todo`. -/
def greedyScan (todo : List ArmorItem) (result_cost total_cost : ℚ) : Option ℕ × ℚ :=
  greedyScanGo total_cost result_cost todo 0 (none, 0)

/-- The `while` loop of `greedy_max_defense`: as long as the scan selects an
index, move that item from the pool to the result and add its cost to
`result_cost`; stop when the scan selects nothing (`max_armor_index == -1`).
The defensive `else` branch models `todo->at(i)` being in range; the scan
only ever produces in-range indices (`greedyScan_index_lt` below), so that
branch is unreachable. -/
def greedyLoop (total_cost : ℚ) (todo result : List ArmorItem) (result_cost : ℚ) :
    List ArmorItem :=
  match (greedyScan todo result_cost total_cost).1 with
  | none => result
  | some i =>
    if hi : i < todo.length then
      greedyLoop total_cost (todo.eraseIdx i) (result ++ [todo.getD i default])
        (result_cost + (todo.getD i default).cost)
    else result
termination_by todo.length
decreasing_by
  have h1 : (todo.eraseIdx i).length = todo.length - 1 := by
    rw [List.length_eraseIdx]
    simp [hi]
  omega

/-- `greedy_max_defense(armors, total_cost)`: pool is a copy of the input,
result starts empty with accumulated cost `0`. -/
def greedy_max_defense (armors : List ArmorItem) (total_cost : ℚ) : List ArmorItem :=
  greedyLoop total_cost armors [] 0

/-- The inner `for` loop of `exhaustive_max_defense`: for `j` in
`[0, n)`, push `armors[j]` onto the candidate exactly when
`((bits >> j) & 1) == 1`. -/
def subsetCandidates (armors : List ArmorItem) (bits : ℕ) : List ArmorItem :=
  (List.range armors.length).foldl
    (fun candidates j =>
      if (bits >>> j) &&& 1 = 1 then candidates ++ [armors.getD j default] else candidates)
    []

/-- Structural form of `subsetCandidates`: bit `0` of `bits` decides the
head, the remaining bits (shifted down, i.e. `bits / 2`) decide the tail.
`subsetCandidates_eq_maskSelect` below proves the two forms equal. -/
def maskSelect : ℕ → List ArmorItem → List ArmorItem
  | _, [] => []
  | bits, armor :: rest =>
    if bits % 2 = 1 then armor :: maskSelect (bits / 2) rest else maskSelect (bits / 2) rest

/-- The body of the subset-enumeration loop of `exhaustive_max_defense`,
acting on the state `(flag, best_defense, bestVector)`: build the candidate
named by `bits`, sum it, and if it is feasible (`cost <= total_cost`) adopt
it when `!flag || defense > best_defense`. -/
def exhStep (armors : List ArmorItem) (total_cost : ℚ)
    (st : Bool × ℚ × List ArmorItem) (bits : ℕ) : Bool × ℚ × List ArmorItem :=
  let candidates := subsetCandidates armors bits
  let cd := sum_armor_vector candidates
  if cd.1 ≤ total_cost then
    (if st.1 = false ∨ cd.2 > st.2.1 then (true, cd.2, candidates) else st)
  else st

/-- The subset-enumeration loop of `exhaustive_max_defense` run over the
masks `0, 1, ..., m - 1`, from the initial state
`(flag = false, best_defense = 0, bestVector = empty)`. -/
def exhFold (armors : List ArmorItem) (total_cost : ℚ) (m : ℕ) : Bool × ℚ × List ArmorItem :=
  (List.range m).foldl (exhStep armors total_cost) (false, 0, [])

/-- `exhaustive_max_defense(armors, total_cost)`: `assert(n < 64)` modeled
as `none` on violation; otherwise run the enumeration over all
`2 ^ n` masks (`pow(2, n)` is exact here since arithmetic is exact) and
return the final `bestVector`. -/
def exhaustive_max_defense (armors : List ArmorItem) (total_cost : ℚ) :
    Option (List ArmorItem) :=
  if armors.length < 64 then
    some (exhFold armors total_cost (2 ^ armors.length)).2.2
  else none

/-- `greedy_max_defense` viewed as acting on the caller's state: the input
vector is passed by `const` reference and only read (copied into the working
pool); threading it through the call makes that explicit. -/
def greedy_max_defense_call (armors : List ArmorItem) (total_cost : ℚ) :
    List ArmorItem × List ArmorItem :=
  (greedyLoop total_cost armors [] 0, armors)

/-- `exhaustive_max_defense` viewed as acting on the caller's state: the
input vector is passed by `const` reference and only read (indexed by the
inner loop); threading it through the call makes that explicit. -/
def exhaustive_max_defense_call (armors : List ArmorItem) (total_cost : ℚ) :
    Option (List ArmorItem) × List ArmorItem :=
  (exhaustive_max_defense armors total_cost, armors)

/-- Feasibility of pool item `i` in a greedy round: its cost fits within
what remains of the budget (`result_cost + cost <= total_cost` in the scan). -/
def fitsBudget (todo : List ArmorItem) (result_cost total_cost : ℚ) (i : ℕ) : Prop :=
  result_cost + (todo.getD i default).cost ≤ total_cost

/-- The efficiency `defense / cost` of pool item `i`, the greedy ranking key. -/
def effAt (todo : List ArmorItem) (i : ℕ) : ℚ :=
  (todo.getD i default).defense / (todo.getD i default).cost

lemma costSum_nil : costSum [] = 0 := rfl

lemma defenseSum_nil : defenseSum [] = 0 := rfl

lemma costSum_append (l1 l2 : List ArmorItem) :
    costSum (l1 ++ l2) = costSum l1 + costSum l2 := by
  simp [costSum]

lemma defenseSum_append (l1 l2 : List ArmorItem) :
    defenseSum (l1 ++ l2) = defenseSum l1 + defenseSum l2 := by
  simp [defenseSum]

lemma costSum_cons (a : ArmorItem) (l : List ArmorItem) :
    costSum (a :: l) = a.cost + costSum l := by
  simp [costSum, ArmorItem.cost]

lemma defenseSum_cons (a : ArmorItem) (l : List ArmorItem) :
    defenseSum (a :: l) = a.defense + defenseSum l := by
  simp [defenseSum, ArmorItem.defense]

lemma sum_armor_vector_go (l : List ArmorItem) :
    ∀ t : ℚ × ℚ,
      l.foldl (fun t armor => (t.1 + armor.cost, t.2 + armor.defense)) t
        = (t.1 + costSum l, t.2 + defenseSum l) := by
  induction l with
  | nil => intro t; simp [costSum, defenseSum]
  | cons a rest ih =>
    intro t
    simp only [List.foldl_cons, ih, costSum_cons, defenseSum_cons]
    simp only [Prod.mk.injEq]
    constructor <;> ring

/-- The one-pass accumulation computes exactly the pair of totals. -/
lemma sum_armor_vector_eq (l : List ArmorItem) :
    sum_armor_vector l = (costSum l, defenseSum l) := by
  simp [sum_armor_vector, sum_armor_vector_go]

lemma costSum_nonneg {l : List ArmorItem} (h : ∀ a ∈ l, 0 < a.cost_gold) :
    0 ≤ costSum l := by
  induction l with
  | nil => simp [costSum_nil]
  | cons a rest ih =>
    have ha := h a (by simp)
    have hr := ih (fun x hx => h x (by simp [hx]))
    rw [costSum_cons]
    have : (0 : ℚ) < a.cost := ha
    linarith

lemma costSum_pos {l : List ArmorItem} (h : ∀ a ∈ l, 0 < a.cost_gold) (hne : l ≠ []) :
    0 < costSum l := by
  cases l with
  | nil => exact absurd rfl hne
  | cons a rest =>
    have ha : (0 : ℚ) < a.cost := h a (by simp)
    have hr : 0 ≤ costSum rest := costSum_nonneg (fun x hx => h x (by simp [hx]))
    rw [costSum_cons]
    linarith

lemma maskSelect_nil (bits : ℕ) : maskSelect bits [] = [] := rfl

lemma maskSelect_zero (l : List ArmorItem) : maskSelect 0 l = [] := by
  induction l with
  | nil => rfl
  | cons a rest ih => simp [maskSelect, ih]

lemma maskSelect_sublist (bits : ℕ) (l : List ArmorItem) :
    (maskSelect bits l).Sublist l := by
  induction l generalizing bits with
  | nil => simp [maskSelect]
  | cons a rest ih =>
    by_cases h : bits % 2 = 1
    · simp only [maskSelect, h, if_pos]
      exact (ih (bits / 2)).cons₂ a
    · simp only [maskSelect, h, if_neg, ite_false]
      exact (ih (bits / 2)).cons a

lemma maskSelect_ne_nil {bits : ℕ} {l : List ArmorItem}
    (hne : bits ≠ 0) (hlt : bits < 2 ^ l.length) : maskSelect bits l ≠ [] := by
  induction l generalizing bits with
  | nil =>
    simp only [List.length_nil, pow_zero, Nat.lt_one_iff] at hlt
    exact absurd hlt hne
  | cons a rest ih =>
    by_cases h : bits % 2 = 1
    · simp [maskSelect, h]
    · have h2 : bits / 2 ≠ 0 := by omega
      have h3 : bits / 2 < 2 ^ rest.length := by
        simp only [List.length_cons, pow_succ] at hlt
        omega
      simp only [maskSelect, h, ite_false]
      exact ih h2 h3

/-- Every subsequence of `l` is the candidate named by some mask below
`2 ^ length l`. -/
lemma exists_mask_of_sublist {s l : List ArmorItem} (h : s.Sublist l) :
    ∃ bits, bits < 2 ^ l.length ∧ maskSelect bits l = s := by
  induction h with
  | slnil => exact ⟨0, by norm_num, rfl⟩
  | cons a h ih =>
    obtain ⟨bits, hlt, heq⟩ := ih
    refine ⟨2 * bits, ?_, ?_⟩
    · simp only [List.length_cons, pow_succ]
      omega
    · have h1 : 2 * bits % 2 = 0 := by omega
      have h2 : 2 * bits / 2 = bits := by omega
      simp [maskSelect, h1, h2, heq]
  | cons₂ a h ih =>
    obtain ⟨bits, hlt, heq⟩ := ih
    refine ⟨2 * bits + 1, ?_, ?_⟩
    · simp only [List.length_cons, pow_succ]
      omega
    · have h1 : (2 * bits + 1) % 2 = 1 := by omega
      have h2 : (2 * bits + 1) / 2 = bits := by omega
      simp [maskSelect, h1, h2, heq]

lemma subsetCandidates_go (l : List ArmorItem) :
    ∀ (bits : ℕ) (acc : List ArmorItem),
      (List.range l.length).foldl
        (fun candidates j =>
          if (bits >>> j) &&& 1 = 1 then candidates ++ [l.getD j default] else candidates)
        acc
      = acc ++ maskSelect bits l := by
  induction l with
  | nil => intro bits acc; simp [maskSelect]
  | cons a rest ih =>
    intro bits acc
    have hshift : ∀ j : ℕ, bits >>> (j + 1) = (bits / 2) >>> j := by
      intro j
      simp only [Nat.shiftRight_eq_div_pow, pow_succ, Nat.div_div_eq_div_mul]
      rw [Nat.mul_comm]
    have hbit0 : bits >>> 0 &&& 1 = bits % 2 := by
      simp [Nat.and_one_is_mod]
    simp only [List.length_cons, List.range_succ_eq_map, List.foldl_cons, List.foldl_map]
    have hstep : ∀ (candidates : List ArmorItem), ∀ j ∈ List.range rest.length,
        (if (bits >>> (j + 1)) &&& 1 = 1 then candidates ++ [(a :: rest).getD (j + 1) default]
          else candidates)
        = (if ((bits / 2) >>> j) &&& 1 = 1 then candidates ++ [rest.getD j default]
          else candidates) := by
      intro candidates j _
      rw [hshift j]
      rfl
    have hinit : (if (bits >>> 0) &&& 1 = 1 then acc ++ [(a :: rest).getD 0 default] else acc)
        = (if bits % 2 = 1 then acc ++ [a] else acc) := by
      rw [hbit0]
      rfl
    rw [hinit, List.foldl_ext _ _ _ hstep, ih (bits / 2)]
    by_cases h : bits % 2 = 1 <;> simp [maskSelect, h]

/-- The literal inner loop of the exhaustive solver builds exactly the
structurally described candidate. -/
lemma subsetCandidates_eq_maskSelect (armors : List ArmorItem) (bits : ℕ) :
    subsetCandidates armors bits = maskSelect bits armors := by
  have h := subsetCandidates_go armors bits []
  rw [List.nil_append] at h
  exact h

lemma exhFold_zero (armors : List ArmorItem) (b : ℚ) :
    exhFold armors b 0 = (false, 0, []) := rfl

lemma exhFold_succ (armors : List ArmorItem) (b : ℚ) (m : ℕ) :
    exhFold armors b (m + 1) = exhStep armors b (exhFold armors b m) m := by
  simp [exhFold, List.range_succ, List.foldl_append]

lemma exhStep_eq (armors : List ArmorItem) (b : ℚ) (st : Bool × ℚ × List ArmorItem)
    (bits : ℕ) :
    exhStep armors b st bits =
      if costSum (maskSelect bits armors) ≤ b then
        (if st.1 = false ∨ defenseSum (maskSelect bits armors) > st.2.1
         then (true, defenseSum (maskSelect bits armors), maskSelect bits armors)
         else st)
      else st := by
  simp only [exhStep, subsetCandidates_eq_maskSelect, sum_armor_vector_eq]

/-- Invariant of the subset-enumeration loop after the first `m` masks:
either no mask so far was feasible and the state is untouched, or the state
holds the first-encountered feasible mask of maximum defense among the
masks processed so far. -/
def ExhInv (armors : List ArmorItem) (b : ℚ) (m : ℕ) (st : Bool × ℚ × List ArmorItem) :
    Prop :=
  (st.1 = false → st.2.1 = 0 ∧ st.2.2 = [] ∧ ∀ k < m, ¬ costSum (maskSelect k armors) ≤ b)
  ∧ (st.1 = true → ∃ k, k < m ∧ costSum (maskSelect k armors) ≤ b ∧
      st.2.2 = maskSelect k armors ∧ st.2.1 = defenseSum (maskSelect k armors) ∧
      (∀ j < m, costSum (maskSelect j armors) ≤ b →
        defenseSum (maskSelect j armors) ≤ st.2.1) ∧
      (∀ j < k, costSum (maskSelect j armors) ≤ b →
        defenseSum (maskSelect j armors) < st.2.1))

lemma ExhInv_step {armors : List ArmorItem} {b : ℚ} {m : ℕ} {st : Bool × ℚ × List ArmorItem}
    (h : ExhInv armors b m st) : ExhInv armors b (m + 1) (exhStep armors b st m) := by
  obtain ⟨flag, best, vec⟩ := st
  obtain ⟨hfalse, htrue⟩ := h
  rw [exhStep_eq]
  by_cases hfeas : costSum (maskSelect m armors) ≤ b
  · rw [if_pos hfeas]
    cases flag with
    | false =>
      obtain ⟨hb0, hv0, hnone⟩ := hfalse rfl
      rw [if_pos (Or.inl rfl)]
      constructor
      · intro hcontra
        exact absurd hcontra (by simp)
      · intro _
        refine ⟨m, Nat.lt_succ_self m, hfeas, rfl, rfl, ?_, ?_⟩
        · intro j hj hfj
          rcases Nat.lt_succ_iff_lt_or_eq.mp hj with hj' | rfl
          · exact absurd hfj (hnone j hj')
          · exact le_refl _
        · intro j hj hfj
          exact absurd hfj (hnone j hj)
    | true =>
      obtain ⟨k, hk, hfk, hveq, hbeq, hmax, hstrict⟩ := htrue rfl
      by_cases hgt : defenseSum (maskSelect m armors) > best
      · rw [if_pos (Or.inr hgt)]
        constructor
        · intro hcontra
          exact absurd hcontra (by simp)
        · intro _
          refine ⟨m, Nat.lt_succ_self m, hfeas, rfl, rfl, ?_, ?_⟩
          · intro j hj hfj
            rcases Nat.lt_succ_iff_lt_or_eq.mp hj with hj' | rfl
            · exact le_of_lt (lt_of_le_of_lt (hmax j hj' hfj) hgt)
            · exact le_refl _
          · intro j hj hfj
            exact lt_of_le_of_lt (hmax j hj hfj) hgt
      · rw [if_neg (by simp [hgt])]
        constructor
        · intro hcontra
          exact absurd hcontra (by simp)
        · intro _
          refine ⟨k, Nat.lt_succ_of_lt hk, hfk, hveq, hbeq, ?_, hstrict⟩
          intro j hj hfj
          rcases Nat.lt_succ_iff_lt_or_eq.mp hj with hj' | rfl
          · exact hmax j hj' hfj
          · exact not_lt.mp hgt
  · rw [if_neg hfeas]
    constructor
    · intro hf
      obtain ⟨hb0, hv0, hnone⟩ := hfalse hf
      refine ⟨hb0, hv0, ?_⟩
      intro k hk
      rcases Nat.lt_succ_iff_lt_or_eq.mp hk with hk' | rfl
      · exact hnone k hk'
      · exact hfeas
    · intro ht
      obtain ⟨k, hk, hfk, hveq, hbeq, hmax, hstrict⟩ := htrue ht
      refine ⟨k, Nat.lt_succ_of_lt hk, hfk, hveq, hbeq, ?_, hstrict⟩
      intro j hj hfj
      rcases Nat.lt_succ_iff_lt_or_eq.mp hj with hj' | rfl
      · exact hmax j hj' hfj
      · exact absurd hfj hfeas

lemma exhFold_inv (armors : List ArmorItem) (b : ℚ) (m : ℕ) :
    ExhInv armors b m (exhFold armors b m) := by
  induction m with
  | zero =>
    rw [exhFold_zero]
    constructor
    · intro _
      exact ⟨rfl, rfl, fun k hk => absurd hk (Nat.not_lt_zero k)⟩
    · intro hcontra
      exact absurd hcontra (by simp)
  | succ m ih =>
    rw [exhFold_succ]
    exact ExhInv_step ih

lemma getD_of_drop {todo rest : List ArmorItem} {armor : ArmorItem} {i0 : ℕ}
    (h : todo.drop i0 = armor :: rest) : todo.getD i0 default = armor := by
  have h0 : todo[i0]? = some armor := by
    have := List.getElem?_drop todo i0 0
    rw [h] at this
    simpa using this.symm
  rw [List.getD_eq_getElem?_getD, h0]
  rfl

lemma drop_succ_of_drop {todo rest : List ArmorItem} {armor : ArmorItem} {i0 : ℕ}
    (h : todo.drop i0 = armor :: rest) : todo.drop (i0 + 1) = rest := by
  have := List.drop_drop 1 i0 todo
  rw [h] at this
  simpa [Nat.add_comm] using this.symm

/-- Invariant of the greedy inner scan having processed pool indices
`0, ..., i0 - 1`: the state `(max_armor_index, max_armor_value)` is still
`(none, 0)` when no feasible item so far had strictly positive efficiency;
otherwise it holds the first-encountered feasible index of strictly
greatest efficiency seen so far, and that efficiency is positive. -/
def ScanInv (todo : List ArmorItem) (result_cost total_cost : ℚ) (i0 : ℕ)
    (st : Option ℕ × ℚ) : Prop :=
  (st.1 = none → st.2 = 0 ∧
    ∀ j < i0, fitsBudget todo result_cost total_cost j → effAt todo j ≤ 0)
  ∧ ∀ k, st.1 = some k → k < i0 ∧ fitsBudget todo result_cost total_cost k ∧
      st.2 = effAt todo k ∧ 0 < st.2 ∧
      (∀ j < i0, fitsBudget todo result_cost total_cost j → effAt todo j ≤ st.2) ∧
      (∀ j < k, fitsBudget todo result_cost total_cost j → effAt todo j < st.2)

lemma ScanInv_step {todo : List ArmorItem} {rc b : ℚ} {i0 : ℕ} {st : Option ℕ × ℚ}
    {armor : ArmorItem} (ha : todo.getD i0 default = armor)
    (h : ScanInv todo rc b i0 st) :
    ScanInv todo rc b (i0 + 1)
      (if rc + armor.cost ≤ b then
        (if armor.defense / armor.cost > st.2 then (some i0, armor.defense / armor.cost)
         else st)
       else st) := by
  obtain ⟨hnone, hsome⟩ := h
  have hfit : fitsBudget todo rc b i0 ↔ rc + armor.cost ≤ b := by
    rw [fitsBudget, ha]
  have heff : effAt todo i0 = armor.defense / armor.cost := by
    rw [effAt, ha]
  have hub : ∀ j < i0, fitsBudget todo rc b j → effAt todo j ≤ st.2 := by
    cases hopt : st.1 with
    | none =>
      obtain ⟨hz, hle⟩ := hnone hopt
      intro j hj hf
      rw [hz]
      exact hle j hj hf
    | some k' =>
      obtain ⟨_, _, _, _, hle, _⟩ := hsome k' hopt
      exact hle
  have hst2 : 0 ≤ st.2 := by
    cases hopt : st.1 with
    | none => exact le_of_eq (hnone hopt).1.symm
    | some k' => exact le_of_lt (hsome k' hopt).2.2.2.1
  by_cases h1 : rc + armor.cost ≤ b
  · rw [if_pos h1]
    by_cases h2 : armor.defense / armor.cost > st.2
    · rw [if_pos h2]
      constructor
      · intro hcontra
        cases hcontra
      · intro k hk
        have hk' : i0 = k := by simpa using hk
        subst hk'
        refine ⟨Nat.lt_succ_self i0, hfit.mpr h1, heff.symm, ?_, ?_, ?_⟩
        · exact lt_of_le_of_lt hst2 h2
        · intro j hj hf
          rcases Nat.lt_succ_iff_lt_or_eq.mp hj with hj' | rfl
          · exact le_of_lt (lt_of_le_of_lt (hub j hj' hf) h2)
          · rw [heff]
        · intro j hj hf
          exact lt_of_le_of_lt (hub j hj hf) h2
    · rw [if_neg h2]
      have heff_le : effAt todo i0 ≤ st.2 := by
        rw [heff]
        exact not_lt.mp h2
      constructor
      · intro hopt
        obtain ⟨hz, hle⟩ := hnone hopt
        refine ⟨hz, ?_⟩
        intro j hj hf
        rcases Nat.lt_succ_iff_lt_or_eq.mp hj with hj' | rfl
        · exact hle j hj' hf
        · rw [← hz]
          exact heff_le
      · intro k hk
        obtain ⟨hki, hkf, hkeq, hkpos, hle, hstrict⟩ := hsome k hk
        refine ⟨Nat.lt_succ_of_lt hki, hkf, hkeq, hkpos, ?_, hstrict⟩
        intro j hj hf
        rcases Nat.lt_succ_iff_lt_or_eq.mp hj with hj' | rfl
        · exact hle j hj' hf
        · exact heff_le
  · rw [if_neg h1]
    have hnofit : ¬ fitsBudget todo rc b i0 := fun hf => h1 (hfit.mp hf)
    constructor
    · intro hopt
      obtain ⟨hz, hle⟩ := hnone hopt
      refine ⟨hz, ?_⟩
      intro j hj hf
      rcases Nat.lt_succ_iff_lt_or_eq.mp hj with hj' | rfl
      · exact hle j hj' hf
      · exact absurd hf hnofit
    · intro k hk
      obtain ⟨hki, hkf, hkeq, hkpos, hle, hstrict⟩ := hsome k hk
      refine ⟨Nat.lt_succ_of_lt hki, hkf, hkeq, hkpos, ?_, hstrict⟩
      intro j hj hf
      rcases Nat.lt_succ_iff_lt_or_eq.mp hj with hj' | rfl
      · exact hle j hj' hf
      · exact absurd hf hnofit

lemma greedyScanGo_inv (b rc : ℚ) (todo : List ArmorItem) (s : List ArmorItem) :
    ∀ (i0 : ℕ) (st : Option ℕ × ℚ),
      todo.drop i0 = s → ScanInv todo rc b i0 st →
      ScanInv todo rc b (i0 + s.length) (greedyScanGo b rc s i0 st) := by
  induction s with
  | nil =>
    intro i0 st _ h
    simpa [greedyScanGo] using h
  | cons armor rest ih =>
    intro i0 st hdrop h
    have ha : todo.getD i0 default = armor := getD_of_drop hdrop
    have hdrop' : todo.drop (i0 + 1) = rest := drop_succ_of_drop hdrop
    have h' := ScanInv_step ha h
    have hrec := ih (i0 + 1) _ hdrop' h'
    have harr : i0 + 1 + rest.length = i0 + (armor :: rest).length := by
      simp [List.length_cons]
      omega
    rw [harr] at hrec
    simpa [greedyScanGo] using hrec

/-- The whole inner scan satisfies the invariant at the full pool length. -/
lemma greedyScan_inv (todo : List ArmorItem) (rc b : ℚ) :
    ScanInv todo rc b todo.length (greedyScan todo rc b) := by
  have h0 : ScanInv todo rc b 0 (none, 0) := by
    constructor
    · intro _
      exact ⟨rfl, fun j hj => absurd hj (Nat.not_lt_zero j)⟩
    · intro k hk
      cases hk
  have h := greedyScanGo_inv b rc todo todo 0 (none, 0) (by simp) h0
  simpa [greedyScan] using h

/-- The scan only ever selects an index inside the pool (so `todo->at(i)`
in the loop body is in range). -/
lemma greedyScan_index_lt {todo : List ArmorItem} {rc b : ℚ} {i : ℕ}
    (h : (greedyScan todo rc b).1 = some i) : i < todo.length :=
  ((greedyScan_inv todo rc b).2 i h).1

/-- The scan only ever selects an item that fits the residual budget. -/
lemma greedyScan_fit {todo : List ArmorItem} {rc b : ℚ} {i : ℕ}
    (h : (greedyScan todo rc b).1 = some i) :
    rc + (todo.getD i default).cost ≤ b :=
  ((greedyScan_inv todo rc b).2 i h).2.1

/-- If some pool item both fits and has strictly positive efficiency, the
scan selects an index. -/
lemma greedyScan_some_of_exists {todo : List ArmorItem} {rc b : ℚ}
    (h : ∃ i < todo.length, fitsBudget todo rc b i ∧ 0 < effAt todo i) :
    ∃ i, (greedyScan todo rc b).1 = some i := by
  obtain ⟨i, hi, hf, hpos⟩ := h
  cases hopt : (greedyScan todo rc b).1 with
  | none =>
    obtain ⟨_, hle⟩ := (greedyScan_inv todo rc b).1 hopt
    exact absurd (hle i hi hf) (not_le.mpr hpos)
  | some k => exact ⟨k, rfl⟩

lemma greedyLoop_none {b : ℚ} {todo result : List ArmorItem} {rc : ℚ}
    (h : (greedyScan todo rc b).1 = none) : greedyLoop b todo result rc = result := by
  rw [greedyLoop.eq_def, h]

lemma greedyLoop_some {b : ℚ} {todo result : List ArmorItem} {rc : ℚ} {i : ℕ}
    (h : (greedyScan todo rc b).1 = some i) :
    greedyLoop b todo result rc =
      greedyLoop b (todo.eraseIdx i) (result ++ [todo.getD i default])
        (rc + (todo.getD i default).cost) := by
  rw [greedyLoop.eq_def, h]
  exact dif_pos (greedyScan_index_lt h)

lemma greedyScan_nil (rc b : ℚ) : greedyScan [] rc b = (none, 0) := rfl

lemma perm_getD_eraseIdx {l : List ArmorItem} {i : ℕ} (hi : i < l.length) :
    l.Perm (l.getD i default :: l.eraseIdx i) := by
  have h2 : l.drop i = l.getD i default :: l.drop (i + 1) := by
    rw [List.getD_eq_getElem?_getD, List.getElem?_eq_getElem hi]
    exact (List.get_drop_eq_drop l i hi).symm
  have h3 : l = l.take i ++ (l.getD i default :: l.drop (i + 1)) := by
    conv_lhs => rw [← List.take_append_drop i l, h2]
  rw [List.eraseIdx_eq_take_drop_succ]
  conv_lhs => rw [h3]
  exact List.perm_middle

lemma costSum_perm {l1 l2 : List ArmorItem} (h : l1.Perm l2) : costSum l1 = costSum l2 :=
  (h.map ArmorItem.cost).sum_eq

lemma defenseSum_perm {l1 l2 : List ArmorItem} (h : l1.Perm l2) :
    defenseSum l1 = defenseSum l2 :=
  (h.map ArmorItem.defense).sum_eq

lemma greedyLoop_fuel_append (b : ℚ) :
    ∀ (n : ℕ) (todo result : List ArmorItem) (rc : ℚ), todo.length ≤ n →
      ∃ tail, greedyLoop b todo result rc = result ++ tail := by
  intro n
  induction n with
  | zero =>
    intro todo result rc hlen
    have htodo : todo = [] := List.length_eq_zero.mp (Nat.le_zero.mp hlen)
    subst htodo
    refine ⟨[], ?_⟩
    rw [greedyLoop_none (by rw [greedyScan_nil])]
    simp
  | succ n ih =>
    intro todo result rc hlen
    cases hscan : (greedyScan todo rc b).1 with
    | none =>
      refine ⟨[], ?_⟩
      rw [greedyLoop_none hscan]
      simp
    | some i =>
      have hi := greedyScan_index_lt hscan
      have hlen' : (todo.eraseIdx i).length ≤ n := by
        rw [List.length_eraseIdx]
        simp only [hi, if_pos]
        omega
      obtain ⟨tail, htail⟩ := ih (todo.eraseIdx i) (result ++ [todo.getD i default])
        (rc + (todo.getD i default).cost) hlen'
      refine ⟨todo.getD i default :: tail, ?_⟩
      rw [greedyLoop_some hscan, htail, List.append_assoc, List.singleton_append]

lemma greedyLoop_fuel_perm (b : ℚ) :
    ∀ (n : ℕ) (todo result : List ArmorItem) (rc : ℚ), todo.length ≤ n →
      ∃ rest, (greedyLoop b todo result rc ++ rest).Perm (result ++ todo) := by
  intro n
  induction n with
  | zero =>
    intro todo result rc hlen
    have htodo : todo = [] := List.length_eq_zero.mp (Nat.le_zero.mp hlen)
    subst htodo
    refine ⟨[], ?_⟩
    rw [greedyLoop_none (by rw [greedyScan_nil])]
  | succ n ih =>
    intro todo result rc hlen
    cases hscan : (greedyScan todo rc b).1 with
    | none =>
      refine ⟨todo, ?_⟩
      rw [greedyLoop_none hscan]
    | some i =>
      have hi := greedyScan_index_lt hscan
      have hlen' : (todo.eraseIdx i).length ≤ n := by
        rw [List.length_eraseIdx]
        simp only [hi, if_pos]
        omega
      obtain ⟨rest, hrest⟩ := ih (todo.eraseIdx i) (result ++ [todo.getD i default])
        (rc + (todo.getD i default).cost) hlen'
      refine ⟨rest, ?_⟩
      rw [greedyLoop_some hscan]
      refine hrest.trans ?_
      rw [List.append_assoc]
      refine List.Perm.append_left result ?_
      exact (perm_getD_eraseIdx hi).symm

lemma greedyLoop_fuel_cost (b : ℚ) :
    ∀ (n : ℕ) (todo result : List ArmorItem) (rc : ℚ), todo.length ≤ n →
      costSum result = rc → (rc ≤ b ∨ (result = [] ∧ rc = 0)) →
      costSum (greedyLoop b todo result rc) ≤ b ∨ greedyLoop b todo result rc = [] := by
  intro n
  induction n with
  | zero =>
    intro todo result rc hlen hrc hcase
    have htodo : todo = [] := List.length_eq_zero.mp (Nat.le_zero.mp hlen)
    subst htodo
    rw [greedyLoop_none (by rw [greedyScan_nil])]
    rcases hcase with h | ⟨h1, _⟩
    · exact Or.inl (hrc ▸ h)
    · exact Or.inr h1
  | succ n ih =>
    intro todo result rc hlen hrc hcase
    cases hscan : (greedyScan todo rc b).1 with
    | none =>
      rw [greedyLoop_none hscan]
      rcases hcase with h | ⟨h1, _⟩
      · exact Or.inl (hrc ▸ h)
      · exact Or.inr h1
    | some i =>
      have hi := greedyScan_index_lt hscan
      have hfits := greedyScan_fit hscan
      have hlen' : (todo.eraseIdx i).length ≤ n := by
        rw [List.length_eraseIdx]
        simp only [hi, if_pos]
        omega
      rw [greedyLoop_some hscan]
      refine ih (todo.eraseIdx i) (result ++ [todo.getD i default])
        (rc + (todo.getD i default).cost) hlen' ?_ (Or.inl hfits)
      rw [costSum_append, hrc, costSum_cons, costSum_nil]
      ring

/-- The greedy result is a permutation of a subsequence of the input: the
loop only ever moves items from the pool (a copy of the input) to the
result. -/
lemma greedy_result_subperm (armors : List ArmorItem) (b : ℚ) :
    (greedy_max_defense armors b).Subperm armors := by
  obtain ⟨rest, hrest⟩ :=
    greedyLoop_fuel_perm b armors.length armors [] 0 (le_refl _)
  rw [List.nil_append] at hrest
  exact ((List.sublist_append_left _ rest).subperm).trans hrest.subperm

/-- The greedy result either fits the budget or is empty: each selection is
guarded by `result_cost + cost <= total_cost`. -/
lemma greedy_cost (armors : List ArmorItem) (b : ℚ) :
    costSum (greedy_max_defense armors b) ≤ b ∨ greedy_max_defense armors b = [] :=
  greedyLoop_fuel_cost b armors.length armors [] 0 (le_refl _) rfl (Or.inr ⟨rfl, rfl⟩)

/-- If the first scan can select (some item fits and has positive
efficiency), the greedy result is non-empty. -/
lemma greedy_ne_nil_of_pos_fit {armors : List ArmorItem} {b : ℚ}
    (h : ∃ i, i < armors.length ∧ fitsBudget armors 0 b i ∧ 0 < effAt armors i) :
    greedy_max_defense armors b ≠ [] := by
  obtain ⟨i, hscan⟩ := greedyScan_some_of_exists (by
    obtain ⟨i, h1, h2, h3⟩ := h
    exact ⟨i, h1, h2, h3⟩)
  rw [greedy_max_defense, greedyLoop_some hscan]
  obtain ⟨tail, htail⟩ :=
    greedyLoop_fuel_append b (armors.eraseIdx i).length (armors.eraseIdx i)
      ([] ++ [armors.getD i default]) (0 + (armors.getD i default).cost) (le_refl _)
  rw [htail]
  simp

lemma exhaustive_some_inv {armors : List ArmorItem} {b : ℚ} {r : List ArmorItem}
    (h : exhaustive_max_defense armors b = some r) :
    armors.length < 64 ∧ r = (exhFold armors b (2 ^ armors.length)).2.2 := by
  by_cases hn : armors.length < 64
  · rw [exhaustive_max_defense, if_pos hn] at h
    exact ⟨hn, (Option.some.injEq _ _).mp h |>.symm⟩
  · rw [exhaustive_max_defense, if_neg hn] at h
    cases h

/-- Characterization of a returned exhaustive solution: either nothing was
feasible and the result is the untouched empty vector, or the result is the
first-encountered feasible mask of maximum defense. -/
lemma exhaustive_result_cases {armors : List ArmorItem} {b : ℚ} {r : List ArmorItem}
    (h : exhaustive_max_defense armors b = some r) :
    (r = [] ∧ ∀ k < 2 ^ armors.length, ¬ costSum (maskSelect k armors) ≤ b)
    ∨ (∃ k, k < 2 ^ armors.length ∧ costSum (maskSelect k armors) ≤ b ∧
        r = maskSelect k armors ∧
        (∀ j < 2 ^ armors.length, costSum (maskSelect j armors) ≤ b →
          defenseSum (maskSelect j armors) ≤ defenseSum r) ∧
        (∀ j < k, costSum (maskSelect j armors) ≤ b →
          defenseSum (maskSelect j armors) < defenseSum r)) := by
  obtain ⟨hn, hr⟩ := exhaustive_some_inv h
  obtain ⟨hfalse, htrue⟩ := exhFold_inv armors b (2 ^ armors.length)
  cases hflag : (exhFold armors b (2 ^ armors.length)).1 with
  | false =>
    obtain ⟨_, hv, hnone⟩ := hfalse hflag
    exact Or.inl ⟨hr.trans hv, hnone⟩
  | true =>
    obtain ⟨k, hk, hfk, hveq, hbeq, hmax, hstrict⟩ := htrue hflag
    have hdr : defenseSum r = (exhFold armors b (2 ^ armors.length)).2.1 := by
      rw [hr, hveq, hbeq]
    refine Or.inr ⟨k, hk, hfk, hr.trans hveq, ?_, ?_⟩
    · intro j hj hfj
      rw [hdr]
      exact hmax j hj hfj
    · intro j hj hfj
      rw [hdr]
      exact hstrict j hj hfj

/-- Global optimality of the exhaustive result over subsequences of the
input (the shared content behind several claims): any subsequence fitting
the budget has defense at most the returned solution's. -/
lemma exhaustive_optimal_sublist {armors : List ArmorItem} {b : ℚ} {r s : List ArmorItem}
    (hr : exhaustive_max_defense armors b = some r) (hs : s.Sublist armors)
    (hcost : costSum s ≤ b) : defenseSum s ≤ defenseSum r := by
  obtain ⟨bits, hbits, hmask⟩ := exists_mask_of_sublist hs
  rcases exhaustive_result_cases hr with ⟨_, hnone⟩ | ⟨k, hk, hfk, hreq, hmax, _⟩
  · rw [← hmask] at hcost
    exact absurd hcost (hnone bits hbits)
  · have h := hmax bits hbits (by rw [hmask]; exact hcost)
    rw [hmask] at h
    exact h

/-- Concrete evaluation: on a single item of positive cost `C` and positive
defense `V`, with budget exactly `C`, the greedy solver returns the
singleton solution. -/
lemma greedy_singleton (d : String) (C V : ℚ) (hC : 0 < C) (hV : 0 < V) :
    greedy_max_defense [⟨d, C, V⟩] C = [⟨d, C, V⟩] := by
  have hfit : fitsBudget [⟨d, C, V⟩] 0 C 0 := by
    simp [fitsBudget, ArmorItem.cost]
  have heff : 0 < effAt [⟨d, C, V⟩] 0 := by
    simp only [effAt, List.getD_cons_zero]
    exact div_pos hV hC
  obtain ⟨i, hscan⟩ := greedyScan_some_of_exists ⟨0, by norm_num, hfit, heff⟩
  have hi0 : i = 0 := by
    have := greedyScan_index_lt hscan
    simp only [List.length_cons, List.length_nil] at this
    omega
  subst hi0
  rw [greedy_max_defense, greedyLoop_some hscan]
  simp only [List.eraseIdx_cons_zero, List.getD_cons_zero, List.nil_append]
  rw [greedyLoop_none (by rw [greedyScan_nil])]

/-- Concrete evaluation: on a single item of positive cost `C` and positive
defense `V`, with budget exactly `C`, the exhaustive solver returns the
singleton solution. -/
lemma exhaustive_singleton (d : String) (C V : ℚ) (hC : 0 < C) (hV : 0 < V) :
    exhaustive_max_defense [⟨d, C, V⟩] C = some [⟨d, C, V⟩] := by
  have hm1 : maskSelect 1 [(⟨d, C, V⟩ : ArmorItem)] = [⟨d, C, V⟩] := by
    simp [maskSelect]
  have hcs : costSum [(⟨d, C, V⟩ : ArmorItem)] = C := by
    rw [costSum_cons, costSum_nil, add_zero, ArmorItem.cost]
  have hds : defenseSum [(⟨d, C, V⟩ : ArmorItem)] = V := by
    rw [defenseSum_cons, defenseSum_nil, add_zero, ArmorItem.defense]
  have e1 : exhStep [(⟨d, C, V⟩ : ArmorItem)] C (false, 0, []) 0 = (true, 0, []) := by
    rw [exhStep_eq, maskSelect_zero, costSum_nil, defenseSum_nil]
    rw [if_pos (le_of_lt hC), if_pos (Or.inl rfl)]
  have e2 : exhStep [(⟨d, C, V⟩ : ArmorItem)] C (true, 0, []) 1 = (true, V, [⟨d, C, V⟩]) := by
    rw [exhStep_eq, hm1, hcs, hds]
    rw [if_pos (le_refl C), if_pos (Or.inr hV)]
  have h1 : exhFold [(⟨d, C, V⟩ : ArmorItem)] C 1
      = exhStep [(⟨d, C, V⟩ : ArmorItem)] C (exhFold [(⟨d, C, V⟩ : ArmorItem)] C 0) 0 :=
    exhFold_succ _ _ 0
  have h2 : exhFold [(⟨d, C, V⟩ : ArmorItem)] C 2
      = exhStep [(⟨d, C, V⟩ : ArmorItem)] C (exhFold [(⟨d, C, V⟩ : ArmorItem)] C 1) 1 :=
    exhFold_succ _ _ 1
  have hlen : (2 : ℕ) ^ ([(⟨d, C, V⟩ : ArmorItem)]).length = 2 := by
    simp
  rw [exhaustive_max_defense, if_pos (by simp)]
  rw [hlen, h2, h1, exhFold_zero, e1, e2]

/-- Concrete evaluation: with the empty collection and budget `-1`, the
exhaustive solver returns the (infeasible) empty solution. -/
lemma exhaustive_nil_neg : exhaustive_max_defense ([] : List ArmorItem) (-1) = some [] := by
  have e1 : exhStep ([] : List ArmorItem) (-1) (false, 0, []) 0 = (false, 0, []) := by
    rw [exhStep_eq, maskSelect_zero, costSum_nil]
    rw [if_neg (by norm_num)]
  have h1 : exhFold ([] : List ArmorItem) (-1) 1
      = exhStep ([] : List ArmorItem) (-1) (exhFold ([] : List ArmorItem) (-1) 0) 0 :=
    exhFold_succ _ _ 0
  have hlen : (2 : ℕ) ^ (([] : List ArmorItem)).length = 1 := by
    simp
  rw [exhaustive_max_defense, if_pos (by simp)]
  rw [hlen, h1, exhFold_zero, e1]

/-- Claim C1: for every item collection with fewer than 64 items (encoded
by `exhaustive_max_defense` returning a solution) and every budget, the
total defense of the exhaustive solution is at least the total defense of
every subset of the input whose total cost is at most the budget. -/
theorem C1_exhaustive_globally_optimal (armors : List ArmorItem) (b : ℚ)
    (r s : List ArmorItem) (hr : exhaustive_max_defense armors b = some r)
    (hs : s.Sublist armors) (hcost : costSum s ≤ b) :
    defenseSum s ≤ defenseSum r :=
  exhaustive_optimal_sublist hr hs hcost

/-- Witness for C1 at a concrete input. -/
theorem C1_witness :
    exhaustive_max_defense [⟨"a", 1, 5⟩] 1 = some [⟨"a", 1, 5⟩] ∧
    defenseSum [] ≤ defenseSum [⟨"a", 1, 5⟩] := by
  have h : exhaustive_max_defense [⟨"a", 1, 5⟩] 1 = some [⟨"a", 1, 5⟩] :=
    exhaustive_singleton "a" 1 5 (by norm_num) (by norm_num)
  exact ⟨h, C1_exhaustive_globally_optimal [⟨"a", 1, 5⟩] 1 [⟨"a", 1, 5⟩] [] h
    (List.nil_sublist _) (by rw [costSum_nil]; norm_num)⟩

/-- Counterexample to claim C2 as stated: with budget `-1` both solvers
return the empty solution, whose aggregate cost `0` exceeds the budget. -/
theorem C2_counterexample :
    ¬ costSum (greedy_max_defense [] (-1)) ≤ (-1 : ℚ) ∧
    ∃ r, exhaustive_max_defense ([] : List ArmorItem) (-1) = some r ∧
      ¬ costSum r ≤ (-1 : ℚ) := by
  constructor
  · rw [greedy_max_defense, greedyLoop_none (by rw [greedyScan_nil])]
    rw [costSum_nil]
    norm_num
  · refine ⟨[], exhaustive_nil_neg, ?_⟩
    rw [costSum_nil]
    norm_num

/-- Claim C2 (amended): for every non-negative budget, each solver's
returned solution has aggregate cost at most the budget.  (As stated, with
no restriction on the budget's sign, the claim fails: for negative budgets
both solvers return the empty solution of cost `0`.) -/
theorem C2_feasibility_amended (armors : List ArmorItem) (b : ℚ) (hb : 0 ≤ b) :
    costSum (greedy_max_defense armors b) ≤ b ∧
    ∀ r, exhaustive_max_defense armors b = some r → costSum r ≤ b := by
  constructor
  · rcases greedy_cost armors b with h | h
    · exact h
    · rw [h, costSum_nil]
      exact hb
  · intro r hr
    rcases exhaustive_result_cases hr with ⟨hrnil, _⟩ | ⟨k, _, hfk, hreq, _, _⟩
    · rw [hrnil, costSum_nil]
      exact hb
    · rw [hreq]
      exact hfk

/-- Witness for the amended C2 at a concrete input. -/
theorem C2_feasibility_witness :
    costSum (greedy_max_defense [⟨"a", 1, 5⟩] 1) ≤ 1 ∧
    ∀ r, exhaustive_max_defense [⟨"a", 1, 5⟩] 1 = some r → costSum r ≤ 1 :=
  C2_feasibility_amended [⟨"a", 1, 5⟩] 1 (by norm_num)

/-- Claim C4: on valid items (positive cost, as the `ArmorItem` constructor
asserts) the exhaustive solution's total defense is at least the greedy
solution's total defense on the same items and budget. -/
theorem C4_exhaustive_dominates_greedy (armors : List ArmorItem) (b : ℚ)
    (r : List ArmorItem) (hpos : ∀ a ∈ armors, 0 < a.cost_gold)
    (hr : exhaustive_max_defense armors b = some r) :
    defenseSum (greedy_max_defense armors b) ≤ defenseSum r := by
  rcases greedy_cost armors b with hle | hnil
  · obtain ⟨s, hs_perm, hs_sub⟩ := greedy_result_subperm armors b
    have hcost_s : costSum s ≤ b := by
      rw [costSum_perm hs_perm]
      exact hle
    have hdef_s : defenseSum s = defenseSum (greedy_max_defense armors b) :=
      defenseSum_perm hs_perm
    rw [← hdef_s]
    exact exhaustive_optimal_sublist hr hs_sub hcost_s
  · rw [hnil, defenseSum_nil]
    by_cases hbpos : 0 ≤ b
    · rcases exhaustive_result_cases hr with ⟨hrnil, _⟩ | ⟨k, hk, hfk, hreq, hmax, _⟩
      · rw [hrnil, defenseSum_nil]
      · have h0 := hmax 0 (Nat.pos_pow_of_pos _ (by norm_num)) (by
          rw [maskSelect_zero, costSum_nil]
          exact hbpos)
        rw [maskSelect_zero, defenseSum_nil] at h0
        exact h0
    · rcases exhaustive_result_cases hr with ⟨hrnil, _⟩ | ⟨k, hk, hfk, hreq, _, _⟩
      · rw [hrnil, defenseSum_nil]
      · exfalso
        have hks : 0 ≤ costSum (maskSelect k armors) :=
          costSum_nonneg (fun a ha => hpos a ((maskSelect_sublist k armors).subset ha))
        have hblt : b < 0 := not_le.mp hbpos
        linarith

/-- Witness for C4 at a concrete input. -/
theorem C4_witness :
    defenseSum (greedy_max_defense [⟨"a", 1, 5⟩] 1) ≤ defenseSum [⟨"a", 1, 5⟩] :=
  C4_exhaustive_dominates_greedy [⟨"a", 1, 5⟩] 1 [⟨"a", 1, 5⟩]
    (by intro a ha; rw [List.mem_singleton] at ha; subst ha; norm_num)
    (exhaustive_singleton "a" 1 5 (by norm_num) (by norm_num))

/-- Concrete evaluation: a single feasible item of defense `0` is never
selected by the greedy scan (its efficiency `0 / 1 = 0` does not strictly
beat the initial `max_armor_value = 0`), so the greedy result is empty. -/
lemma greedy_zero_defense_nil : greedy_max_defense [⟨"a", 1, 0⟩] 1 = [] := by
  have hnone : (greedyScan [⟨"a", 1, 0⟩] 0 1).1 = none := by
    cases hopt : (greedyScan [⟨"a", 1, 0⟩] 0 1).1 with
    | none => rfl
    | some k =>
      obtain ⟨hk, _, hkeq, hkpos, _, _⟩ := (greedyScan_inv [⟨"a", 1, 0⟩] 0 1).2 k hopt
      exfalso
      have hk0 : k = 0 := by
        simp only [List.length_cons, List.length_nil] at hk
        omega
      subst hk0
      rw [hkeq] at hkpos
      simp only [effAt, List.getD_cons_zero, ArmorItem.defense, ArmorItem.cost] at hkpos
      norm_num at hkpos
  rw [greedy_max_defense, greedyLoop_none hnone]

/-- Concrete evaluation: on a single feasible item of defense `0` the
exhaustive solver keeps the empty subset (mask `0` is the first feasible
candidate; the singleton's defense `0` does not strictly beat it). -/
lemma exhaustive_zero_defense_nil :
    exhaustive_max_defense [⟨"a", 1, 0⟩] 1 = some [] := by
  have hm1 : maskSelect 1 [(⟨"a", 1, 0⟩ : ArmorItem)] = [⟨"a", 1, 0⟩] := by
    simp [maskSelect]
  have hcs : costSum [(⟨"a", 1, 0⟩ : ArmorItem)] = 1 := by
    rw [costSum_cons, costSum_nil, add_zero, ArmorItem.cost]
  have hds : defenseSum [(⟨"a", 1, 0⟩ : ArmorItem)] = 0 := by
    rw [defenseSum_cons, defenseSum_nil, add_zero, ArmorItem.defense]
  have e1 : exhStep [(⟨"a", 1, 0⟩ : ArmorItem)] 1 (false, 0, []) 0 = (true, 0, []) := by
    rw [exhStep_eq, maskSelect_zero, costSum_nil, defenseSum_nil]
    rw [if_pos (by norm_num), if_pos (Or.inl rfl)]
  have e2 : exhStep [(⟨"a", 1, 0⟩ : ArmorItem)] 1 (true, 0, []) 1 = (true, 0, []) := by
    rw [exhStep_eq, hm1, hcs, hds]
    rw [if_pos (le_refl (1 : ℚ)), if_neg (by simp)]
  have h1 : exhFold [(⟨"a", 1, 0⟩ : ArmorItem)] 1 1
      = exhStep [(⟨"a", 1, 0⟩ : ArmorItem)] 1 (exhFold [(⟨"a", 1, 0⟩ : ArmorItem)] 1 0) 0 :=
    exhFold_succ _ _ 0
  have h2 : exhFold [(⟨"a", 1, 0⟩ : ArmorItem)] 1 2
      = exhStep [(⟨"a", 1, 0⟩ : ArmorItem)] 1 (exhFold [(⟨"a", 1, 0⟩ : ArmorItem)] 1 1) 1 :=
    exhFold_succ _ _ 1
  have hlen : (2 : ℕ) ^ ([(⟨"a", 1, 0⟩ : ArmorItem)]).length = 2 := by
    simp
  rw [exhaustive_max_defense, if_pos (by simp)]
  rw [hlen, h2, h1, exhFold_zero, e1, e2]

/-- Counterexample to claim C5 as stated: the single item fits the budget
(`0 + 1 <= 1`), yet the greedy solver selects nothing and returns the empty
solution, because the item's efficiency `0 / 1 = 0` does not strictly
exceed the initial `max_armor_value = 0`. -/
theorem C5_counterexample :
    fitsBudget [⟨"a", 1, 0⟩] 0 1 0 ∧ greedy_max_defense [⟨"a", 1, 0⟩] 1 = [] := by
  constructor
  · simp only [fitsBudget, List.getD_cons_zero, ArmorItem.cost]
    norm_num
  · exact greedy_zero_defense_nil

/-- Claim C5 (amended): in every greedy round, if some pool item fits the
remaining budget and has strictly positive efficiency, the scan selects a
feasible item of strictly greatest efficiency among the feasible items,
ties broken by lowest index; it selects nothing (terminating the loop)
exactly when every feasible item has non-positive efficiency; and on valid
items, if some item of positive defense fits the budget the returned
solution is non-empty.  (As stated the claim fails: a feasible item of
zero defense is never selected, since the running maximum starts at `0`
and must be beaten strictly.) -/
theorem C5_greedy_round_selection :
    (∀ (todo : List ArmorItem) (result_cost total_cost : ℚ),
      ((∃ i, i < todo.length ∧ fitsBudget todo result_cost total_cost i ∧
          0 < effAt todo i) →
        ∃ i, (greedyScan todo result_cost total_cost).1 = some i ∧ i < todo.length ∧
          fitsBudget todo result_cost total_cost i ∧
          (∀ j < todo.length, fitsBudget todo result_cost total_cost j →
            effAt todo j ≤ effAt todo i) ∧
          (∀ j < i, fitsBudget todo result_cost total_cost j →
            effAt todo j < effAt todo i)) ∧
      ((∀ i < todo.length, fitsBudget todo result_cost total_cost i →
          effAt todo i ≤ 0) →
        (greedyScan todo result_cost total_cost).1 = none)) ∧
    (∀ (armors : List ArmorItem) (total_cost : ℚ),
      (∀ a ∈ armors, 0 < a.cost_gold) →
      (∃ a ∈ armors, a.cost_gold ≤ total_cost ∧ 0 < a.defense_points) →
      greedy_max_defense armors total_cost ≠ []) := by
  refine ⟨fun todo rc b => ⟨?_, ?_⟩, ?_⟩
  · intro hex
    obtain ⟨i0, h1, h2, h3⟩ := hex
    obtain ⟨i, hscan⟩ := greedyScan_some_of_exists ⟨i0, h1, h2, h3⟩
    obtain ⟨hlt, hfit, heq, hpos, hle, hstrict⟩ := (greedyScan_inv todo rc b).2 i hscan
    refine ⟨i, hscan, hlt, hfit, ?_, ?_⟩
    · intro j hj hf
      rw [← heq]
      exact hle j hj hf
    · intro j hj hf
      rw [← heq]
      exact hstrict j hj hf
  · intro hall
    cases hopt : (greedyScan todo rc b).1 with
    | none => rfl
    | some k =>
      obtain ⟨hk, hkf, hkeq, hkpos, _, _⟩ := (greedyScan_inv todo rc b).2 k hopt
      rw [hkeq] at hkpos
      exact absurd hkpos (not_lt.mpr (hall k hk hkf))
  · intro armors b hpos hex
    obtain ⟨a, ha, hcost, hdef⟩ := hex
    obtain ⟨i, hilt, hieq⟩ := List.getElem_of_mem ha
    have hgetD : armors.getD i default = a := by
      rw [List.getD_eq_getElem?_getD, List.getElem?_eq_getElem hilt, hieq]
      rfl
    refine greedy_ne_nil_of_pos_fit ⟨i, hilt, ?_, ?_⟩
    · rw [fitsBudget, hgetD, ArmorItem.cost, zero_add]
      exact hcost
    · rw [effAt, hgetD, ArmorItem.defense, ArmorItem.cost]
      exact div_pos hdef (hpos a ha)

/-- Witness for the amended C5 at a concrete input. -/
theorem C5_witness :
    (∃ i, (greedyScan [⟨"a", 1, 2⟩] 0 5).1 = some i ∧
      i < ([(⟨"a", 1, 2⟩ : ArmorItem)]).length ∧
      fitsBudget [⟨"a", 1, 2⟩] 0 5 i ∧
      (∀ j < ([(⟨"a", 1, 2⟩ : ArmorItem)]).length, fitsBudget [⟨"a", 1, 2⟩] 0 5 j →
        effAt [⟨"a", 1, 2⟩] j ≤ effAt [⟨"a", 1, 2⟩] i) ∧
      (∀ j < i, fitsBudget [⟨"a", 1, 2⟩] 0 5 j →
        effAt [⟨"a", 1, 2⟩] j < effAt [⟨"a", 1, 2⟩] i)) ∧
    greedy_max_defense [⟨"a", 1, 2⟩] 5 ≠ [] := by
  constructor
  · refine (C5_greedy_round_selection.1 [⟨"a", 1, 2⟩] 0 5).1 ⟨0, by simp, ?_, ?_⟩
    · simp only [fitsBudget, List.getD_cons_zero, ArmorItem.cost]
      norm_num
    · simp only [effAt, List.getD_cons_zero, ArmorItem.defense, ArmorItem.cost]
      norm_num
  · refine C5_greedy_round_selection.2 [⟨"a", 1, 2⟩] 5 ?_ ⟨⟨"a", 1, 2⟩, by simp, by norm_num, by norm_num⟩
    intro a ha
    rw [List.mem_singleton] at ha
    subst ha
    norm_num

/-- Counterexample to claim C6 as stated: for the single item of cost `1`
and (non-negative) defense `0`, with budget `1`, neither solver returns the
singleton: the greedy scan never selects a zero-efficiency item, and the
exhaustive solver keeps the earlier empty subset on the value tie. -/
theorem C6_counterexample :
    greedy_max_defense [⟨"a", 1, 0⟩] 1 ≠ [⟨"a", 1, 0⟩] ∧
    exhaustive_max_defense [⟨"a", 1, 0⟩] 1 ≠ some [⟨"a", 1, 0⟩] := by
  constructor
  · rw [greedy_zero_defense_nil]
    simp
  · rw [exhaustive_zero_defense_nil]
    simp

/-- Claim C6 (amended): for a single item of positive cost `C` and positive
value `V`, with budget exactly `C`, both solvers return the singleton
solution.  (As stated, with any non-negative `V`, the claim fails at
`V = 0`.) -/
theorem C6_singleton_amended (d : String) (C V : ℚ) (hC : 0 < C) (hV : 0 < V) :
    greedy_max_defense [⟨d, C, V⟩] C = [⟨d, C, V⟩] ∧
    exhaustive_max_defense [⟨d, C, V⟩] C = some [⟨d, C, V⟩] :=
  ⟨greedy_singleton d C V hC hV, exhaustive_singleton d C V hC hV⟩

/-- Witness for the amended C6 at a concrete input. -/
theorem C6_witness :
    greedy_max_defense [⟨"a", 2, 3⟩] 2 = [⟨"a", 2, 3⟩] ∧
    exhaustive_max_defense [⟨"a", 2, 3⟩] 2 = some [⟨"a", 2, 3⟩] :=
  C6_singleton_amended "a" 2 3 (by norm_num) (by norm_num)

/-- Claim C7: the exhaustive solver fails its `assert(n < 64)` precondition
(modeled as `none`) exactly on collections of 64 or more items, and returns
a solution on every smaller collection. -/
theorem C7_size_precondition (armors : List ArmorItem) (b : ℚ) :
    (64 ≤ armors.length → exhaustive_max_defense armors b = none) ∧
    (armors.length < 64 → ∃ r, exhaustive_max_defense armors b = some r) := by
  constructor
  · intro h
    rw [exhaustive_max_defense, if_neg (not_lt.mpr h)]
  · intro h
    exact ⟨_, by rw [exhaustive_max_defense, if_pos h]⟩

/-- Witness for C7 at concrete inputs on both sides of the bound. -/
theorem C7_witness :
    exhaustive_max_defense (List.replicate 64 ⟨"a", 1, 1⟩) 5 = none ∧
    ∃ r, exhaustive_max_defense [(⟨"a", 1, 1⟩ : ArmorItem)] 5 = some r := by
  constructor
  · exact (C7_size_precondition (List.replicate 64 ⟨"a", 1, 1⟩) 5).1 (by simp)
  · exact (C7_size_precondition [⟨"a", 1, 1⟩] 5).2 (by simp)

/-- Claim C8: when some mask below `2 ^ n` is feasible, the returned
solution is the candidate of the numerically smallest such mask achieving
the maximum defense (every feasible mask has defense at most the result's,
and every feasible mask strictly below the winning one has strictly smaller
defense, so a later tie never replaces the incumbent); and when no
non-empty subset is feasible the empty solution is returned rather than a
failure. -/
theorem C8_exhaustive_tiebreak (armors : List ArmorItem) (b : ℚ) (r : List ArmorItem)
    (hr : exhaustive_max_defense armors b = some r) :
    ((∃ k, k < 2 ^ armors.length ∧ costSum (maskSelect k armors) ≤ b) →
      ∃ k, k < 2 ^ armors.length ∧ costSum (maskSelect k armors) ≤ b ∧
        r = maskSelect k armors ∧
        (∀ j < 2 ^ armors.length, costSum (maskSelect j armors) ≤ b →
          defenseSum (maskSelect j armors) ≤ defenseSum r) ∧
        (∀ j < k, costSum (maskSelect j armors) ≤ b →
          defenseSum (maskSelect j armors) < defenseSum r))
    ∧ ((∀ s, s.Sublist armors → s ≠ [] → ¬ costSum s ≤ b) → r = []) := by
  constructor
  · intro hex
    obtain ⟨k0, hk0, hf0⟩ := hex
    rcases exhaustive_result_cases hr with ⟨_, hnone⟩ | hgood
    · exact absurd hf0 (hnone k0 hk0)
    · exact hgood
  · intro hnofeas
    rcases exhaustive_result_cases hr with ⟨hrnil, _⟩ | ⟨k, hk, hfk, hreq, hmax, hstrict⟩
    · exact hrnil
    · by_cases hk0 : k = 0
      · rw [hreq, hk0, maskSelect_zero]
      · exact absurd hfk (hnofeas _ (maskSelect_sublist k armors) (maskSelect_ne_nil hk0 hk))

/-- Witness for C8 at a concrete input. -/
theorem C8_witness :
    ∃ k, k < 2 ^ ([(⟨"a", 1, 5⟩ : ArmorItem)]).length ∧
      costSum (maskSelect k [⟨"a", 1, 5⟩]) ≤ 1 ∧
      [(⟨"a", 1, 5⟩ : ArmorItem)] = maskSelect k [⟨"a", 1, 5⟩] ∧
      (∀ j < 2 ^ ([(⟨"a", 1, 5⟩ : ArmorItem)]).length,
        costSum (maskSelect j [⟨"a", 1, 5⟩]) ≤ 1 →
        defenseSum (maskSelect j [⟨"a", 1, 5⟩]) ≤ defenseSum [⟨"a", 1, 5⟩]) ∧
      (∀ j < k, costSum (maskSelect j [⟨"a", 1, 5⟩]) ≤ 1 →
        defenseSum (maskSelect j [⟨"a", 1, 5⟩]) < defenseSum [⟨"a", 1, 5⟩]) :=
  (C8_exhaustive_tiebreak [⟨"a", 1, 5⟩] 1 [⟨"a", 1, 5⟩]
      (exhaustive_singleton "a" 1 5 (by norm_num) (by norm_num))).1
    ⟨0, Nat.pos_pow_of_pos _ (by norm_num), by rw [maskSelect_zero, costSum_nil]; norm_num⟩

/-- Claim C9: neither solver mutates its input collection; in the
state-passing view of each call, the caller's vector after the call is the
vector passed in. -/
theorem C9_no_input_mutation (armors : List ArmorItem) (total_cost : ℚ) :
    (greedy_max_defense_call armors total_cost).2 = armors ∧
    (exhaustive_max_defense_call armors total_cost).2 = armors :=
  ⟨rfl, rfl⟩

/-- Claim C10: the exhaustive solution is a subsequence of the input
collection — each input position appears at most once, in ascending order
of input index. -/
theorem C10_exhaustive_preserves_order (armors : List ArmorItem) (b : ℚ)
    (r : List ArmorItem) (hr : exhaustive_max_defense armors b = some r) :
    r.Sublist armors := by
  rcases exhaustive_result_cases hr with ⟨hrnil, _⟩ | ⟨k, _, _, hreq, _, _⟩
  · rw [hrnil]
    exact List.nil_sublist armors
  · rw [hreq]
    exact maskSelect_sublist k armors

/-- Witness for C10 at a concrete input. -/
theorem C10_witness : ([(⟨"a", 1, 5⟩ : ArmorItem)]).Sublist [⟨"a", 1, 5⟩] :=
  C10_exhaustive_preserves_order [⟨"a", 1, 5⟩] 1 [⟨"a", 1, 5⟩]
    (exhaustive_singleton "a" 1 5 (by norm_num) (by norm_num))

/-- Claim C3 is a code bug, witnessed here by evaluation: with
`total_size = 0` the filter returns the first qualifying item (the
comparison `filtered->size() >= total_size` is checked only after a push),
and with `total_size = -1` it returns all qualifying items (the negative
`int` converts to the huge `size_t` `2^64 - 1`, so the break never fires) —
the documented behavior (at most the first `total_size` qualifying items,
so none for `total_size <= 0`) requires an empty result in both cases. -/
theorem C3_filter_limit_bug :
    filter_armor_vector [⟨"helmet", 1, 5⟩] 0 10 0 = [⟨"helmet", 1, 5⟩] ∧
    filter_armor_vector [⟨"helmet", 1, 5⟩, ⟨"shield", 2, 6⟩] 0 10 (-1)
      = [⟨"helmet", 1, 5⟩, ⟨"shield", 2, 6⟩] := by
  have hs0 : size_t_of_int 0 = 0 := by
    norm_num [size_t_of_int]
  have hsn : size_t_of_int (-1) = 2 ^ 64 - 1 := by
    norm_num [size_t_of_int, Int.emod_emod_of_dvd]
  constructor
  · rw [filter_armor_vector]
    norm_num [filterLoop, hs0, ArmorItem.defense]
  · rw [filter_armor_vector]
    norm_num [filterLoop, hsn, ArmorItem.defense]
